import Mathlib

/-!
Shallow embedding of the meal-ledger part of the personal-calorie-pal
repository.

Sources embedded here:
* `src/backend/src/features/meals/routes/meals.routes.js` — the Express
  route handlers `POST /meals/logMeal`, `GET /meals/progress`,
  `PUT /meals/:id`, `DELETE /meals/:id`.
* `src/unnamed/part_001` — the Sequelize `Meal` model: the `foods`
  validator `isValidFoods`, the `beforeCreate` / `beforeUpdate` hooks that
  recompute `totalCalories` and `recommendedSteps`, and the static
  aggregation helper `Meal.getDailyCalories`.
* the Sequelize `User` model (embedded in `src/backend/test_api.ps1`):
  fields `totalLifetimeCalories` (default 0) and `dailyCalorieGoal`
  (default 2000).

Modelling conventions:
* JavaScript numbers that the code treats as calorie counts, step counts
  and timestamps are modelled as `Int` (every claim is about integer
  inputs; floating-point rounding of `Math.round(x * 0.05)` and of
  `Math.round((current / goal) * 100)` is modelled exactly over the
  rationals these integer inputs denote).
* Timestamps are integers (milliseconds).  `startOfDay` floors a
  timestamp to its day (the source uses the local-timezone calendar via
  `new Date(y, m, d)`; the timezone offset is abstracted away, which no
  claim depends on).
* JavaScript truthiness on an optional number/string argument
  (`x || default`, `if (x)`) is modelled by `jsOrInt` / `jsOrStr`:
  `none` and `0` (resp. the empty string) select the default.
* A missing food `name` and an empty-string `name` are both falsy in JS
  (`!food.name`); requests here carry total `String`s, so a missing name
  is represented by `""`.
* The optional passthrough food fields `nutrition`, `servingSize` and
  `confidence`, and the `image` column, are defaulted by the route and
  read by no claim; they are not modelled.
* Database writes are explicit state passing on `St`; a thrown Sequelize
  validation error or a failed/impossible method call surfaces as an
  `Except` error, leaving exactly the writes already performed applied
  (the route has no transaction around its writes).
* Meal ids are an autoincrement primary key, hence unique; the row
  update/delete `WHERE id = …` is embedded as replace/remove of the
  first list entry matching the same find predicate the route used.
-/

namespace CaloriePal

/-- A food item as it appears in a request body: `{ name, calories }`. -/
structure ReqFood where
  name : String
  calories : Int
  deriving Repr, DecidableEq

/-- A food item as stored on a meal row after the route mapping
(`name: food.name.toLowerCase().trim(), calories: food.calories`). -/
structure Food where
  name : String
  calories : Int
  deriving Repr, DecidableEq

/-- A row of the `meals` table (columns read by the claims). -/
structure MealRec where
  id : Nat
  userId : Nat
  foods : List Food
  totalCalories : Int
  mealType : String
  notes : String
  consumedAt : Int
  recommendedSteps : Int
  deriving Repr, DecidableEq

/-- A row of the `users` table (columns read by the claims). -/
structure User where
  id : Nat
  totalLifetimeCalories : Int
  dailyCalorieGoal : Int
  deriving Repr, DecidableEq

/-- A freshly registered account: the `User` model declares
`totalLifetimeCalories` with `defaultValue: 0` and `dailyCalorieGoal`
with `defaultValue: 2000`. -/
def freshUser (uid : Nat) : User :=
  { id := uid, totalLifetimeCalories := 0, dailyCalorieGoal := 2000 }

/-- The database state shared by the route handlers. -/
structure St where
  users : List User
  meals : List MealRec
  nextMealId : Nat
  deriving Repr, DecidableEq

/-- How a meal operation fails.  `routeValidation` is the explicit 400
response of the route-level checks; `modelValidation` is a Sequelize
model-validation error thrown by `Meal.create` / `meal.save`;
`notFound` is the 404 response; `server` is the catch-all 500. -/
inductive MealError where
  | routeValidation (msg : String)
  | modelValidation (msg : String)
  | notFound
  | server
  deriving Repr, DecidableEq

/-- JS `x || d` for an optional number: `undefined` and `0` are falsy. -/
def jsOrInt (x : Option Int) (d : Int) : Int :=
  match x with
  | some v => if v = 0 then d else v
  | none => d

/-- JS `x || d` for an optional string: `undefined` and `""` are falsy. -/
def jsOrStr (x : Option String) (d : String) : String :=
  match x with
  | some v => if v = "" then d else v
  | none => d

/-- JS `String.prototype.toLowerCase`, restricted to per-character
lowering (the only strings the claims touch are ASCII); written as a
structural recursion over the character list so that the kernel can
evaluate it. -/
def jsToLower (s : String) : String := String.mk (s.data.map Char.toLower)

/-- JS `String.prototype.trim`: drop whitespace from both ends; written
as a structural recursion over the character list so that the kernel
can evaluate it. -/
def jsTrim (s : String) : String :=
  String.mk (((s.data.dropWhile Char.isWhitespace).reverse.dropWhile
    Char.isWhitespace).reverse)

/-- The route mapping applied to each submitted food
(`meals.routes.js` lines 57-63 and 364-370). -/
def mapFood (f : ReqFood) : Food :=
  { name := jsTrim (jsToLower f.name), calories := f.calories }

/-- Route line 52: `foods.reduce((sum, food) => sum + food.calories, 0)`. -/
def reqFoodsSum (foods : List ReqFood) : Int :=
  foods.foldl (fun s f => s + f.calories) 0

/-- The hook sum of `Meal.beforeCreate` / `Meal.beforeUpdate`
(`part_001` lines 122 and 129):
`foods.reduce((total, food) => total + (food.calories || 0), 0)`. -/
def hookSum (foods : List Food) : Int :=
  foods.foldl (fun t f => t + (if f.calories = 0 then 0 else f.calories)) 0

/-- `Math.round (num / den)` for `0 ≤ num` and `0 < den`:
round half up, computed exactly over the rationals. -/
def jsRoundDiv (num den : Int) : Int := (2 * num + den) / (2 * den)

/-- `Math.round(totalCalories * 0.05)` from the model hooks
(`part_001` lines 123 and 130), for the nonnegative integer totals the
hooks produce. -/
def recommendedStepsOf (total : Int) : Int := jsRoundDiv total 20

/-- The per-item check of the model validator `isValidFoods`
(`part_001` lines 32-39): `!food.name` and
`!food.calories || food.calories < 0` each throw, so a stored food has
a nonempty name and strictly positive calories. -/
def validFoodItem (f : Food) : Bool :=
  f.name != "" && f.calories != 0 && decide (0 ≤ f.calories)

/-- Sequelize validation of a `Meal` instance, run before the
`beforeCreate`/`beforeUpdate` hooks: `isValidFoods` (`part_001` lines
26-40), the `totalCalories` `min: 0` validator (line 50), and the
`notes` length validator (line 79). -/
def modelValidMeal (foods : List Food) (totalCals : Int) (notes : String) : Bool :=
  !foods.isEmpty && foods.all validFoodItem
    && decide (0 ≤ totalCals) && decide (notes.length ≤ 500)

/-- `User.findByPk(uid)`. -/
def findUser (users : List User) (uid : Nat) : Option User :=
  users.find? (fun u => u.id == uid)

/-- `user.totalLifetimeCalories += delta; await user.save()` on the row
with primary key `uid`. -/
def bumpUser (users : List User) (uid : Nat) (delta : Int) : List User :=
  users.map (fun u =>
    if u.id = uid then
      { u with totalLifetimeCalories := u.totalLifetimeCalories + delta }
    else u)

/-- `Meal.findOne({ where: { id: mealId, userId: ownerId } })`. -/
def findMeal (meals : List MealRec) (mealId ownerId : Nat) : Option MealRec :=
  meals.find? (fun m => m.id == mealId && m.userId == ownerId)

/-- The row update `meal.save()`: replace the row the route found (ids
are an autoincrement primary key, so the first match is the only one). -/
def replaceFirst : List MealRec → Nat → Nat → MealRec → List MealRec
  | [], _, _, _ => []
  | m :: rest, mealId, ownerId, new =>
    if m.id == mealId && m.userId == ownerId then new :: rest
    else m :: replaceFirst rest mealId ownerId new

/-- The row delete `meal.destroy()`: remove the row the route found. -/
def removeFirst : List MealRec → Nat → Nat → List MealRec
  | [], _, _ => []
  | m :: rest, mealId, ownerId =>
    if m.id == mealId && m.userId == ownerId then rest
    else m :: removeFirst rest mealId ownerId

/-- Request body of `POST /meals/logMeal`. -/
structure LogReq where
  foods : List ReqFood
  totalCalories : Option Int
  mealType : Option String
  notes : Option String
  consumedAt : Option Int
  deriving Repr, DecidableEq

/-- The `POST /meals/logMeal` handler (`meals.routes.js` lines 29-111),
with a failure-injection flag for the second write: `failUserSave`
makes the `user.save()` that follows the successful `Meal.create`
throw, modelling a storage failure between the two (untransacted)
writes.  `now` is the clock value `new Date()` reads. -/
def logMealWith (failUserSave : Bool) (st : St) (ownerId : Nat) (now : Int)
    (req : LogReq) : Except MealError MealRec × St :=
  if req.foods.isEmpty then
    (.error (.routeValidation "Foods array is required and must contain at least one item"), st)
  else if req.foods.any (fun f => f.name == "" || decide (f.calories < 0)) then
    (.error (.routeValidation "Each food item must have a valid name and non-negative calories"), st)
  else
    let calculatedCalories := jsOrInt req.totalCalories (reqFoodsSum req.foods)
    let mapped := req.foods.map mapFood
    let notes := jsOrStr req.notes ""
    if !(modelValidMeal mapped calculatedCalories notes) then
      (.error (.modelValidation "Sequelize model validation failed"), st)
    else
      let total := hookSum mapped
      let meal : MealRec :=
        { id := st.nextMealId
          userId := ownerId
          foods := mapped
          totalCalories := total
          mealType := jsOrStr req.mealType "other"
          notes := notes
          consumedAt := jsOrInt req.consumedAt now
          recommendedSteps := recommendedStepsOf total }
      let st1 : St := { st with meals := st.meals ++ [meal], nextMealId := st.nextMealId + 1 }
      if failUserSave then
        (.error .server, st1)
      else
        match findUser st1.users ownerId with
        | none => (.error .server, st1)
        | some _ => (.ok meal, { st1 with users := bumpUser st1.users ownerId calculatedCalories })

/-- The `POST /meals/logMeal` handler on the happy storage path. -/
def logMeal : St → Nat → Int → LogReq → Except MealError MealRec × St :=
  logMealWith false

/-- Request body of `PUT /meals/:id`.  `notes` is guarded by
`notes !== undefined`, so `some ""` sets the empty string; the other
three fields are guarded by JS truthiness. -/
structure UpdateReq where
  foods : Option (List ReqFood)
  mealType : Option String
  notes : Option String
  consumedAt : Option Int
  deriving Repr, DecidableEq

/-- The new value of the `foods` column under `PUT /meals/:id`
(`meals.routes.js` lines 363-371): overwritten only when the request
supplies a nonempty array. -/
def updatedFoods (meal : MealRec) (req : UpdateReq) : List Food :=
  match req.foods with
  | some fs => if fs.isEmpty then meal.foods else fs.map mapFood
  | none => meal.foods

/-- The field overwrites of `PUT /meals/:id` (`meals.routes.js` lines
363-375) applied to the loaded row: `foods` when a nonempty array,
`mealType` and `consumedAt` when truthy, `notes` when not undefined. -/
def applyPatch (meal : MealRec) (req : UpdateReq) : MealRec :=
  { meal with
    foods := updatedFoods meal req
    mealType :=
      match req.mealType with
      | some mt => if mt = "" then meal.mealType else mt
      | none => meal.mealType
    notes :=
      match req.notes with
      | some n => n
      | none => meal.notes
    consumedAt :=
      match req.consumedAt with
      | some t => if t = 0 then meal.consumedAt else t
      | none => meal.consumedAt }

/-- The `Meal.beforeUpdate` hook (`part_001` lines 127-132): when the
`foods` value changed, recompute `totalCalories` and
`recommendedSteps` from the new foods. -/
def runBeforeUpdate (old new : MealRec) : MealRec :=
  if new.foods = old.foods then new
  else
    { new with
      totalCalories := hookSum new.foods
      recommendedSteps := recommendedStepsOf (hookSum new.foods) }

/-- The `PUT /meals/:id` handler (`meals.routes.js` lines 341-417).
The route loads the meal (404 when absent or not owned), overwrites the
provided fields, saves the row — model validation first, then the
`beforeUpdate` hook — and finally, when the calorie delta is nonzero,
bumps the owner row by the delta. -/
def updateMeal (st : St) (ownerId mealId : Nat) (req : UpdateReq) :
    Except MealError MealRec × St :=
  match findMeal st.meals mealId ownerId with
  | none => (.error .notFound, st)
  | some meal =>
    let m1 := applyPatch meal req
    if !(modelValidMeal m1.foods m1.totalCalories m1.notes) then
      (.error (.modelValidation "Sequelize model validation failed"), st)
    else
      let m2 := runBeforeUpdate meal m1
      let st1 : St := { st with meals := replaceFirst st.meals mealId ownerId m2 }
      let caloriesDiff := m2.totalCalories - meal.totalCalories
      if caloriesDiff = 0 then (.ok m2, st1)
      else
        match findUser st.users ownerId with
        | none => (.error .server, st1)
        | some _ => (.ok m2, { st1 with users := bumpUser st.users ownerId caloriesDiff })

/-- The `DELETE /meals/:id` handler (`meals.routes.js` lines 428-478):
404 when the meal is absent or not owned; otherwise the owner row is
decremented by the stored `totalCalories` and the meal row destroyed.
On success it returns the deleted record. -/
def deleteMeal (st : St) (ownerId mealId : Nat) : Except MealError MealRec × St :=
  match findMeal st.meals mealId ownerId with
  | none => (.error .notFound, st)
  | some meal =>
    match findUser st.users ownerId with
    | none => (.error .server, st)
    | some _ =>
      (.ok meal,
        { st with
          users := bumpUser st.users ownerId (-meal.totalCalories)
          meals := removeFirst st.meals mealId ownerId })

/-- Milliseconds per day. -/
def msPerDay : Int := 24 * 60 * 60 * 1000

/-- `new Date(date.getFullYear(), date.getMonth(), date.getDate())` as a
flooring of the timestamp to its day (timezone offset abstracted). -/
def startOfDay (t : Int) : Int := t - t.emod msPerDay

/-- SQL `SUM` of an integer column, with the `parseInt(x) || 0` applied
by `getDailyCalories` to the (possibly `NULL`) aggregate. -/
def sqlSum (xs : List Int) : Int := xs.foldl (· + ·) 0

/-- Result row of the aggregation helpers. -/
structure Totals where
  totalCalories : Int
  mealCount : Nat
  totalSteps : Int
  deriving Repr, DecidableEq

/-- `Meal.getDailyCalories(userId, date)` (`part_001` lines 135-161):
aggregates the rows with this `userId` whose `consumedAt` satisfies
`startOfDay <= consumedAt < startOfDay + 24h`. -/
def getDailyCalories (st : St) (uid : Nat) (date : Int) : Totals :=
  let dayStart := startOfDay date
  let rows := st.meals.filter (fun m =>
    m.userId == uid
      && decide (dayStart ≤ m.consumedAt)
      && decide (m.consumedAt < dayStart + msPerDay))
  { totalCalories := sqlSum (rows.map MealRec.totalCalories)
    mealCount := rows.length
    totalSteps := sqlSum (rows.map MealRec.recommendedSteps) }

/-- The `dailyProgress` object of `GET /meals/progress`. -/
structure Progress where
  current : Int
  goal : Int
  percentage : Int
  remaining : Int
  deriving Repr, DecidableEq

/-- The `dailyProgress` computation of `GET /meals/progress`
(`meals.routes.js` lines 144-151): `goal = user.dailyCalorieGoal || 2000`,
`percentage = Math.round((current / goal) * 100)`,
`remaining = Math.max(0, goal - current)`. -/
def dailyProgressOf (current goalField : Int) : Progress :=
  let dailyGoal := jsOrInt (some goalField) 2000
  { current := current
    goal := dailyGoal
    percentage := jsRoundDiv (current * 100) dailyGoal
    remaining := max 0 (dailyGoal - current) }

/-- One ledger operation, as issued by an authenticated caller. -/
inductive Op where
  | log (ownerId : Nat) (now : Int) (req : LogReq)
  | update (ownerId : Nat) (mealId : Nat) (req : UpdateReq)
  | del (ownerId : Nat) (mealId : Nat)
  deriving Repr, DecidableEq

/-- Apply one operation to the state (the response is dropped; a failed
operation keeps exactly the writes it performed before failing). -/
def applyOp (st : St) (op : Op) : St :=
  match op with
  | .log ownerId now req => (logMeal st ownerId now req).2
  | .update ownerId mealId req => (updateMeal st ownerId mealId req).2
  | .del ownerId mealId => (deleteMeal st ownerId mealId).2

/-- Apply a finite sequence of operations. -/
def run (st : St) (ops : List Op) : St := ops.foldl applyOp st

/-- Sum of `totalCalories` over the stored meals owned by `uid`. -/
def mealSumFor (meals : List MealRec) (uid : Nat) : Int :=
  ((meals.filter (fun m => m.userId == uid)).map MealRec.totalCalories).sum

/-- The §4.3 counter-sync invariant: every user row caches exactly the
sum of `totalCalories` over its non-deleted meal rows. -/
def LedgerInv (st : St) : Prop :=
  ∀ u ∈ st.users, u.totalLifetimeCalories = mealSumFor st.meals u.id

/-- The §3 per-record invariant: every stored `totalCalories` equals the
sum of the calories of the stored foods. -/
def MealInv (st : St) : Prop :=
  ∀ m ∈ st.meals, m.totalCalories = (m.foods.map Food.calories).sum

/-- The owner a ledger operation runs as. -/
def Op.owner : Op → Nat
  | .log ownerId _ _ => ownerId
  | .update ownerId _ _ => ownerId
  | .del ownerId _ => ownerId

/-- A logMeal request whose client-supplied `totalCalories` is absent,
zero (falsy) or equal to the sum of the submitted foods — the
operations for which the route increments the counter by the stored
total.  Non-log operations satisfy this vacuously. -/
def Op.goodClientTotal : Op → Prop
  | .log _ _ req =>
      req.totalCalories = none ∨ req.totalCalories = some 0
        ∨ req.totalCalories = some (reqFoodsSum req.foods)
  | .update _ _ _ => True
  | .del _ _ => True

instance : DecidablePred Op.goodClientTotal := by
  intro op
  cases op <;> simp [Op.goodClientTotal] <;> infer_instance

instance (st : St) : Decidable (LedgerInv st) := by
  unfold LedgerInv; infer_instance

instance (st : St) : Decidable (MealInv st) := by
  unfold MealInv; infer_instance

/-- Recognizes the explicit 400 route-validation response. -/
def isRouteValidationErr : Except MealError MealRec → Bool
  | .error (.routeValidation _) => true
  | _ => false

/-- Recognizes a thrown Sequelize model-validation error. -/
def isModelValidationErr : Except MealError MealRec → Bool
  | .error (.modelValidation _) => true
  | _ => false

/-- A fresh database holding one freshly registered account. -/
def demoState : St := { users := [freshUser 1], meals := [], nextMealId := 1 }

/-- A fixed clock value for the concrete scenarios. -/
def demoNow : Int := 1728000000000

/-- The §8 scenario request: `logMeal(foods=[{name:"apple",calories:95}])`. -/
def appleReq : LogReq :=
  { foods := [{ name := "apple", calories := 95 }], totalCalories := none,
    mealType := none, notes := none, consumedAt := none }

/-- A request whose client-supplied `totalCalories` (500) differs from
the sum of the calories of its foods (100). -/
def mismatchReq : LogReq :=
  { foods := [{ name := "rice", calories := 100 }], totalCalories := some 500,
    mealType := none, notes := none, consumedAt := none }

/-- A request whose single food has a nonempty name and calories exactly
zero. -/
def waterReq : LogReq :=
  { foods := [{ name := "water", calories := 0 }], totalCalories := none,
    mealType := none, notes := none, consumedAt := none }

/-- A stored meal worth 100 calories, for the update/delete scenarios. -/
def meal100 : MealRec :=
  { id := 1, userId := 1, foods := [{ name := "x", calories := 100 }],
    totalCalories := 100, mealType := "other", notes := "",
    consumedAt := demoNow, recommendedSteps := 5 }

/-- The user row of `stWithMeal`. -/
def userHundred : User :=
  { id := 1, totalLifetimeCalories := 100, dailyCalorieGoal := 2000 }

/-- The database after `meal100` was logged by user 1. -/
def stWithMeal : St :=
  { users := [userHundred], meals := [meal100], nextMealId := 2 }

/-- The §8 update scenario: change foods to `[{calories:60}]`. -/
def update60 : UpdateReq :=
  { foods := some [{ name := "x", calories := 60 }], mealType := none,
    notes := none, consumedAt := none }

instance : DecidableEq (Except MealError MealRec) := fun x y =>
  match x, y with
  | .ok a, .ok b =>
    match decEq a b with
    | isTrue h => isTrue (by rw [h])
    | isFalse h => isFalse (fun hc => h (by injection hc))
  | .error a, .error b =>
    match decEq a b with
    | isTrue h => isTrue (by rw [h])
    | isFalse h => isFalse (fun hc => h (by injection hc))
  | .ok _, .error _ => isFalse (fun hc => Except.noConfusion hc)
  | .error _, .ok _ => isFalse (fun hc => Except.noConfusion hc)

/-- A request with an empty foods array. -/
def emptyFoodsReq : LogReq :=
  { foods := [], totalCalories := none, mealType := none, notes := none,
    consumedAt := none }

/-- The meal row `logMeal` stores for `appleReq` at clock `demoNow`. -/
def appleMeal : MealRec :=
  { id := 1, userId := 1, foods := [{ name := "apple", calories := 95 }],
    totalCalories := 95, mealType := "other", notes := "",
    consumedAt := demoNow, recommendedSteps := 5 }

/-- The database after `appleReq` was logged on `demoState`. -/
def stAfterApple : St :=
  { users := [{ id := 1, totalLifetimeCalories := 95, dailyCalorieGoal := 2000 }],
    meals := [appleMeal], nextMealId := 2 }

/-- The meal row produced by applying `update60` to `meal100`. -/
def meal60 : MealRec :=
  { id := 1, userId := 1, foods := [{ name := "x", calories := 60 }],
    totalCalories := 60, mealType := "other", notes := "",
    consumedAt := demoNow, recommendedSteps := 3 }

/-- The database after `update60` was applied to `stWithMeal`. -/
def stAfter60 : St :=
  { users := [{ id := 1, totalLifetimeCalories := 60, dailyCalorieGoal := 2000 }],
    meals := [meal60], nextMealId := 2 }

theorem foldl_add_map {α : Type} (g : α → Int) (l : List α) :
    ∀ a : Int, l.foldl (fun t x => t + g x) a = a + (l.map g).sum := by
  induction l with
  | nil => intro a; simp
  | cons x xs ih =>
    intro a
    simp only [List.foldl_cons, List.map_cons, List.sum_cons, ih]
    ring

theorem hookSum_eq_sum (fs : List Food) : hookSum fs = (fs.map Food.calories).sum := by
  unfold hookSum
  have h : (fun (t : Int) (f : Food) => t + (if f.calories = 0 then 0 else f.calories))
      = fun (t : Int) (f : Food) => t + Food.calories f := by
    funext t f
    by_cases hc : f.calories = 0 <;> simp [hc]
  rw [h, foldl_add_map Food.calories fs 0, zero_add]

theorem reqFoodsSum_eq_sum (fs : List ReqFood) :
    reqFoodsSum fs = (fs.map ReqFood.calories).sum := by
  unfold reqFoodsSum
  rw [foldl_add_map ReqFood.calories fs 0, zero_add]

theorem mapFood_calories (fs : List ReqFood) :
    (fs.map mapFood).map Food.calories = fs.map ReqFood.calories := by
  rw [List.map_map]
  rfl

theorem hookSum_mapFood (fs : List ReqFood) :
    hookSum (fs.map mapFood) = reqFoodsSum fs := by
  rw [hookSum_eq_sum, mapFood_calories, reqFoodsSum_eq_sum]

theorem sqlSum_eq_sum (xs : List Int) : sqlSum xs = xs.sum := by
  unfold sqlSum
  have h : (fun (t : Int) (x : Int) => t + x) = fun (t : Int) (x : Int) => t + id x := rfl
  rw [h, foldl_add_map id xs 0, zero_add, List.map_id]

theorem jsOrInt_of_good {x : Option Int} {d : Int}
    (h : x = none ∨ x = some 0 ∨ x = some d) : jsOrInt x d = d := by
  rcases h with h | h | h <;> subst h
  · rfl
  · simp [jsOrInt]
  · show (if d = 0 then d else d) = d
    split <;> rfl

theorem mealSumFor_cons (m : MealRec) (ms : List MealRec) (uid : Nat) :
    mealSumFor (m :: ms) uid
      = (if m.userId == uid then m.totalCalories else 0) + mealSumFor ms uid := by
  unfold mealSumFor
  rw [List.filter_cons]
  by_cases h : (m.userId == uid)
  · rw [if_pos h, if_pos h, List.map_cons, List.sum_cons]
  · rw [if_neg h, if_neg h, zero_add]

theorem mealSumFor_append_single (ms : List MealRec) (m : MealRec) (uid : Nat) :
    mealSumFor (ms ++ [m]) uid
      = mealSumFor ms uid + (if m.userId == uid then m.totalCalories else 0) := by
  unfold mealSumFor
  rw [List.filter_append, List.map_append, List.sum_append]
  congr 1
  by_cases h : (m.userId == uid)
  · rw [List.filter_cons, if_pos h]
    have hx : m.userId = uid := beq_iff_eq.mp h
    simp [hx]
  · rw [List.filter_cons, if_neg h]
    have hx : ¬ m.userId = uid := by simpa using h
    simp [hx]

theorem findUser_isSome_iff (users : List User) (uid : Nat) :
    (findUser users uid).isSome ↔ uid ∈ users.map User.id := by
  unfold findUser
  rw [List.find?_isSome, List.mem_map]
  constructor
  · rintro ⟨u, hu, hpred⟩
    exact ⟨u, hu, beq_iff_eq.mp hpred⟩
  · rintro ⟨u, hu, hid⟩
    exact ⟨u, hu, beq_iff_eq.mpr hid⟩

theorem findUser_bumpUser_self (users : List User) (uid : Nat) (d : Int) (u : User)
    (h : findUser users uid = some u) :
    findUser (bumpUser users uid d) uid
      = some { u with totalLifetimeCalories := u.totalLifetimeCalories + d } := by
  induction users with
  | nil => simp [findUser] at h
  | cons v rest ih =>
    unfold findUser at h ⊢
    unfold bumpUser
    by_cases hv : v.id = uid
    · rw [List.find?_cons_of_pos _ (by simp [hv])] at h
      injection h with h
      subst h
      simp only [List.map_cons, if_pos hv]
      rw [List.find?_cons_of_pos _ (by simp [hv])]
    · rw [List.find?_cons_of_neg _ (by simp [hv])] at h
      simp only [List.map_cons, if_neg hv]
      rw [List.find?_cons_of_neg _ (by simp [hv])]
      exact ih h

theorem findUser_bumpUser_other (users : List User) (uid w : Nat) (d : Int)
    (hw : w ≠ uid) :
    findUser (bumpUser users uid d) w = findUser users w := by
  induction users with
  | nil => rfl
  | cons v rest ih =>
    unfold findUser at ih ⊢
    unfold bumpUser at ih ⊢
    by_cases hv : v.id = uid
    · simp only [List.map_cons, if_pos hv]
      rw [List.find?_cons_of_neg _ (by simp [hv]; omega),
        List.find?_cons_of_neg _ (by simp [hv]; omega)]
      exact ih
    · simp only [List.map_cons, if_neg hv]
      by_cases hvw : v.id = w
      · rw [List.find?_cons_of_pos _ (by simp [hvw]),
          List.find?_cons_of_pos _ (by simp [hvw])]
      · rw [List.find?_cons_of_neg _ (by simp [hvw]),
          List.find?_cons_of_neg _ (by simp [hvw])]
        exact ih

theorem map_id_bumpUser (users : List User) (uid : Nat) (d : Int) :
    (bumpUser users uid d).map User.id = users.map User.id := by
  unfold bumpUser
  rw [List.map_map]
  apply List.map_congr_left
  intro u _
  by_cases h : u.id = uid <;> simp [h]

theorem findMeal_mem {ms : List MealRec} {mid oid : Nat} {meal : MealRec}
    (h : findMeal ms mid oid = some meal) :
    meal ∈ ms ∧ meal.id = mid ∧ meal.userId = oid := by
  have hmem := List.mem_of_find?_eq_some h
  have hpred := List.find?_some h
  simp only [Bool.and_eq_true, beq_iff_eq] at hpred
  exact ⟨hmem, hpred.1, hpred.2⟩

theorem findMeal_cons_pos (m : MealRec) (ms : List MealRec) (mid oid : Nat)
    (hp : (m.id == mid && m.userId == oid) = true) :
    findMeal (m :: ms) mid oid = some m :=
  List.find?_cons_of_pos ms hp

theorem findMeal_cons_neg (m : MealRec) (ms : List MealRec) (mid oid : Nat)
    (hp : ¬ ((m.id == mid && m.userId == oid) = true)) :
    findMeal (m :: ms) mid oid = findMeal ms mid oid :=
  List.find?_cons_of_neg ms hp

theorem mem_replaceFirst {x new : MealRec} {mid oid : Nat} :
    ∀ {ms : List MealRec}, x ∈ replaceFirst ms mid oid new → x = new ∨ x ∈ ms := by
  intro ms
  induction ms with
  | nil => intro h; simp [replaceFirst] at h
  | cons m rest ih =>
    intro h
    unfold replaceFirst at h
    by_cases hp : (m.id == mid && m.userId == oid)
    · rw [if_pos hp] at h
      rcases List.mem_cons.mp h with h | h
      · exact Or.inl h
      · exact Or.inr (List.mem_cons_of_mem _ h)
    · rw [if_neg hp] at h
      rcases List.mem_cons.mp h with h | h
      · exact Or.inr (by simp [h])
      · rcases ih h with h | h
        · exact Or.inl h
        · exact Or.inr (List.mem_cons_of_mem _ h)

theorem mem_removeFirst {x : MealRec} {mid oid : Nat} :
    ∀ {ms : List MealRec}, x ∈ removeFirst ms mid oid → x ∈ ms := by
  intro ms
  induction ms with
  | nil => intro h; simp [removeFirst] at h
  | cons m rest ih =>
    intro h
    unfold removeFirst at h
    by_cases hp : (m.id == mid && m.userId == oid)
    · rw [if_pos hp] at h
      exact List.mem_cons_of_mem _ h
    · rw [if_neg hp] at h
      rcases List.mem_cons.mp h with h | h
      · simp [h]
      · exact List.mem_cons_of_mem _ (ih h)

theorem length_removeFirst {mid oid : Nat} :
    ∀ {ms : List MealRec} {meal : MealRec}, findMeal ms mid oid = some meal →
      (removeFirst ms mid oid).length + 1 = ms.length := by
  intro ms
  induction ms with
  | nil => intro meal h; simp [findMeal] at h
  | cons m rest ih =>
    intro meal h
    unfold removeFirst
    by_cases hp : (m.id == mid && m.userId == oid)
    · rw [if_pos hp]
      simp
    · rw [findMeal_cons_neg m rest mid oid hp] at h
      rw [if_neg hp]
      simp only [List.length_cons]
      rw [← ih h]

theorem mealSumFor_replaceFirst {mid oid : Nat} (new : MealRec) (uid : Nat) :
    ∀ {ms : List MealRec} {old : MealRec}, findMeal ms mid oid = some old →
      mealSumFor (replaceFirst ms mid oid new) uid
        = mealSumFor ms uid
            + (if new.userId == uid then new.totalCalories else 0)
            - (if old.userId == uid then old.totalCalories else 0) := by
  intro ms
  induction ms with
  | nil => intro old h; simp [findMeal] at h
  | cons m rest ih =>
    intro old h
    unfold replaceFirst
    by_cases hp : (m.id == mid && m.userId == oid)
    · rw [findMeal_cons_pos m rest mid oid hp] at h
      injection h with h
      subst h
      rw [if_pos hp, mealSumFor_cons, mealSumFor_cons]
      ring
    · rw [findMeal_cons_neg m rest mid oid hp] at h
      rw [if_neg hp, mealSumFor_cons, mealSumFor_cons, ih h]
      ring

theorem mealSumFor_removeFirst {mid oid : Nat} (uid : Nat) :
    ∀ {ms : List MealRec} {old : MealRec}, findMeal ms mid oid = some old →
      mealSumFor (removeFirst ms mid oid) uid
        = mealSumFor ms uid - (if old.userId == uid then old.totalCalories else 0) := by
  intro ms
  induction ms with
  | nil => intro old h; simp [findMeal] at h
  | cons m rest ih =>
    intro old h
    unfold removeFirst
    by_cases hp : (m.id == mid && m.userId == oid)
    · rw [findMeal_cons_pos m rest mid oid hp] at h
      injection h with h
      subst h
      rw [if_pos hp, mealSumFor_cons]
      ring
    · rw [findMeal_cons_neg m rest mid oid hp] at h
      rw [if_neg hp, mealSumFor_cons, mealSumFor_cons, ih h]
      ring

theorem applyPatch_userId (meal : MealRec) (req : UpdateReq) :
    (applyPatch meal req).userId = meal.userId := rfl

theorem applyPatch_id (meal : MealRec) (req : UpdateReq) :
    (applyPatch meal req).id = meal.id := rfl

theorem applyPatch_totalCalories (meal : MealRec) (req : UpdateReq) :
    (applyPatch meal req).totalCalories = meal.totalCalories := rfl

theorem runBeforeUpdate_userId (old new : MealRec) :
    (runBeforeUpdate old new).userId = new.userId := by
  unfold runBeforeUpdate
  split <;> rfl

theorem runBeforeUpdate_foods (old new : MealRec) :
    (runBeforeUpdate old new).foods = new.foods := by
  unfold runBeforeUpdate
  split <;> rfl

theorem runBeforeUpdate_total_of_changed (old new : MealRec)
    (h : new.foods ≠ old.foods) :
    (runBeforeUpdate old new).totalCalories = hookSum new.foods := by
  unfold runBeforeUpdate
  rw [if_neg h]

theorem runBeforeUpdate_of_unchanged (old new : MealRec)
    (h : new.foods = old.foods) : runBeforeUpdate old new = new := by
  unfold runBeforeUpdate
  rw [if_pos h]

theorem logMeal_ok_shape (st : St) (oid : Nat) (now : Int) (req : LogReq)
    (m : MealRec) (st' : St) (h : logMeal st oid now req = (.ok m, st')) :
    m.userId = oid
    ∧ m.id = st.nextMealId
    ∧ m.foods = req.foods.map mapFood
    ∧ m.totalCalories = hookSum (req.foods.map mapFood)
    ∧ st'.meals = st.meals ++ [m]
    ∧ st'.nextMealId = st.nextMealId + 1
    ∧ st'.users = bumpUser st.users oid (jsOrInt req.totalCalories (reqFoodsSum req.foods))
    ∧ (findUser st.users oid).isSome := by
  unfold logMeal logMealWith at h
  simp only [Bool.false_eq_true, if_false] at h
  split at h
  · simp at h
  · split at h
    · simp at h
    · split at h
      · simp at h
      · split at h
        · simp at h
        · next u heq =>
          simp only [Prod.mk.injEq] at h
          obtain ⟨h1, h2⟩ := h
          injection h1 with h1
          subst h1
          subst h2
          refine ⟨rfl, rfl, rfl, rfl, rfl, rfl, rfl, ?_⟩
          simp [heq]

theorem logMeal_err_shape (st : St) (oid : Nat) (now : Int) (req : LogReq)
    (e : MealError) (st' : St) (h : logMeal st oid now req = (.error e, st')) :
    st' = st
    ∨ (st'.users = st.users ∧ findUser st.users oid = none
        ∧ ∃ m, st'.meals = st.meals ++ [m]
            ∧ m.totalCalories = hookSum m.foods ∧ m.userId = oid) := by
  unfold logMeal logMealWith at h
  simp only [Bool.false_eq_true, if_false] at h
  split at h
  · simp only [Prod.mk.injEq] at h
    exact Or.inl h.2.symm
  · split at h
    · simp only [Prod.mk.injEq] at h
      exact Or.inl h.2.symm
    · split at h
      · simp only [Prod.mk.injEq] at h
        exact Or.inl h.2.symm
      · split at h
        · next heq =>
          simp only [Prod.mk.injEq] at h
          obtain ⟨h1, h2⟩ := h
          subst h2
          exact Or.inr ⟨rfl, heq, ⟨_, rfl, rfl, rfl⟩⟩
        · simp at h

theorem updateMeal_ok_shape (st : St) (oid mid : Nat) (req : UpdateReq)
    (m' : MealRec) (st' : St) (h : updateMeal st oid mid req = (.ok m', st')) :
    ∃ meal, findMeal st.meals mid oid = some meal
      ∧ m' = runBeforeUpdate meal (applyPatch meal req)
      ∧ st'.meals = replaceFirst st.meals mid oid m'
      ∧ st'.nextMealId = st.nextMealId
      ∧ ((m'.totalCalories = meal.totalCalories ∧ st'.users = st.users)
          ∨ ((findUser st.users oid).isSome
              ∧ st'.users = bumpUser st.users oid (m'.totalCalories - meal.totalCalories))) := by
  unfold updateMeal at h
  split at h
  · simp at h
  · next meal hfind =>
    simp only [] at h
    split at h
    · simp at h
    · split at h
      · next hdiff =>
        simp only [Prod.mk.injEq] at h
        obtain ⟨h1, h2⟩ := h
        injection h1 with h1
        subst h1
        subst h2
        refine ⟨meal, hfind, rfl, rfl, rfl, Or.inl ⟨by omega, rfl⟩⟩
      · split at h
        · simp at h
        · next u hu =>
          simp only [Prod.mk.injEq] at h
          obtain ⟨h1, h2⟩ := h
          injection h1 with h1
          subst h1
          subst h2
          refine ⟨meal, hfind, rfl, rfl, rfl, Or.inr ⟨by simp [hu], rfl⟩⟩

theorem updateMeal_err_shape (st : St) (oid mid : Nat) (req : UpdateReq)
    (e : MealError) (st' : St) (h : updateMeal st oid mid req = (.error e, st')) :
    st' = st
    ∨ (st'.users = st.users ∧ findUser st.users oid = none
        ∧ ∃ meal, findMeal st.meals mid oid = some meal
            ∧ st'.meals
                = replaceFirst st.meals mid oid
                    (runBeforeUpdate meal (applyPatch meal req))) := by
  unfold updateMeal at h
  split at h
  · simp only [Prod.mk.injEq] at h
    exact Or.inl h.2.symm
  · next meal hfind =>
    simp only [] at h
    split at h
    · simp only [Prod.mk.injEq] at h
      exact Or.inl h.2.symm
    · split at h
      · simp at h
      · split at h
        · next hu =>
          simp only [Prod.mk.injEq] at h
          obtain ⟨h1, h2⟩ := h
          subst h2
          exact Or.inr ⟨rfl, hu, meal, hfind, rfl⟩
        · simp at h

theorem deleteMeal_ok_shape (st : St) (oid mid : Nat) (m : MealRec) (st' : St)
    (h : deleteMeal st oid mid = (.ok m, st')) :
    findMeal st.meals mid oid = some m
    ∧ st'.meals = removeFirst st.meals mid oid
    ∧ st'.users = bumpUser st.users oid (-m.totalCalories)
    ∧ st'.nextMealId = st.nextMealId
    ∧ (findUser st.users oid).isSome := by
  unfold deleteMeal at h
  split at h
  · simp at h
  · next meal hfind =>
    split at h
    · simp at h
    · next u hu =>
      simp only [Prod.mk.injEq] at h
      obtain ⟨h1, h2⟩ := h
      injection h1 with h1
      subst h1
      subst h2
      exact ⟨hfind, rfl, rfl, rfl, by simp [hu]⟩

theorem deleteMeal_err_shape (st : St) (oid mid : Nat) (e : MealError) (st' : St)
    (h : deleteMeal st oid mid = (.error e, st')) : st' = st := by
  unfold deleteMeal at h
  split at h
  · simp only [Prod.mk.injEq] at h
    exact h.2.symm
  · split at h
    · simp only [Prod.mk.injEq] at h
      exact h.2.symm
    · simp at h

theorem map_id_applyOp (st : St) (op : Op) :
    (applyOp st op).users.map User.id = st.users.map User.id := by
  cases op with
  | log o now req =>
    dsimp only [applyOp]
    rcases hres : logMeal st o now req with ⟨res, st2⟩
    dsimp only
    cases res with
    | ok m =>
      obtain ⟨_, _, _, _, _, _, husers, _⟩ := logMeal_ok_shape st o now req m st2 hres
      rw [husers, map_id_bumpUser]
    | error e =>
      rcases logMeal_err_shape st o now req e st2 hres with h | ⟨husers, _, _⟩
      · rw [h]
      · rw [husers]
  | update o mid req =>
    dsimp only [applyOp]
    rcases hres : updateMeal st o mid req with ⟨res, st2⟩
    dsimp only
    cases res with
    | ok m2 =>
      obtain ⟨meal, _, _, _, _, hcase⟩ := updateMeal_ok_shape st o mid req m2 st2 hres
      rcases hcase with ⟨_, husers⟩ | ⟨_, husers⟩
      · rw [husers]
      · rw [husers, map_id_bumpUser]
    | error e =>
      rcases updateMeal_err_shape st o mid req e st2 hres with h | ⟨husers, _, _⟩
      · rw [h]
      · rw [husers]
  | del o mid =>
    dsimp only [applyOp]
    rcases hres : deleteMeal st o mid with ⟨res, st2⟩
    dsimp only
    cases res with
    | ok m =>
      obtain ⟨_, _, husers, _, _⟩ := deleteMeal_ok_shape st o mid m st2 hres
      rw [husers, map_id_bumpUser]
    | error e =>
      rw [deleteMeal_err_shape st o mid e st2 hres]

theorem ledgerInv_applyOp (st : St) (op : Op) (hInv : LedgerInv st)
    (hOwner : op.owner ∈ st.users.map User.id) (hGood : op.goodClientTotal) :
    LedgerInv (applyOp st op) := by
  cases op with
  | log o now req =>
    dsimp only [applyOp]
    rcases hres : logMeal st o now req with ⟨res, st2⟩
    dsimp only
    cases res with
    | error e =>
      rcases logMeal_err_shape st o now req e st2 hres with h | ⟨_, hnone, _⟩
      · rw [h]; exact hInv
      · exfalso
        have hs : (findUser st.users o).isSome := (findUser_isSome_iff st.users o).mpr hOwner
        rw [hnone] at hs
        simp at hs
    | ok m =>
      obtain ⟨hmuid, _, _, htot, hmeals, _, husers, _⟩ :=
        logMeal_ok_shape st o now req m st2 hres
      have hcalc : jsOrInt req.totalCalories (reqFoodsSum req.foods) = reqFoodsSum req.foods :=
        jsOrInt_of_good hGood
      intro v hv
      rw [husers] at hv
      unfold bumpUser at hv
      obtain ⟨u, hu, hveq⟩ := List.mem_map.mp hv
      rw [hmeals, mealSumFor_append_single]
      subst hveq
      by_cases hid : u.id = o
      · rw [if_pos hid]
        have hite : (if m.userId == u.id then m.totalCalories else 0) = m.totalCalories := by
          rw [if_pos (beq_iff_eq.mpr (by rw [hmuid, hid]))]
        rw [hite, hcalc, htot, hookSum_mapFood]
        have h0 := hInv u hu
        simp only []
        rw [h0]
      · rw [if_neg hid]
        have hite : (if m.userId == u.id then m.totalCalories else 0) = 0 := by
          rw [if_neg (by simp [hmuid]; omega)]
        rw [hite, add_zero]
        exact hInv u hu
  | update o mid req =>
    dsimp only [applyOp]
    rcases hres : updateMeal st o mid req with ⟨res, st2⟩
    dsimp only
    cases res with
    | error e =>
      rcases updateMeal_err_shape st o mid req e st2 hres with h | ⟨_, hnone, _⟩
      · rw [h]; exact hInv
      · exfalso
        have hs : (findUser st.users o).isSome := (findUser_isSome_iff st.users o).mpr hOwner
        rw [hnone] at hs
        simp at hs
    | ok m2 =>
      obtain ⟨meal, hfind, hm2, hmeals, _, hcase⟩ := updateMeal_ok_shape st o mid req m2 st2 hres
      have hmuid : meal.userId = o := (findMeal_mem hfind).2.2
      have hm2uid : m2.userId = o := by
        rw [hm2, runBeforeUpdate_userId, applyPatch_userId]; exact hmuid
      rcases hcase with ⟨htoteq, husers⟩ | ⟨_, husers⟩
      · intro v hv
        rw [husers] at hv
        rw [hmeals, mealSumFor_replaceFirst m2 v.id hfind]
        have hite : (if m2.userId == v.id then m2.totalCalories else 0)
            = (if meal.userId == v.id then meal.totalCalories else 0) := by
          rw [hm2uid, hmuid, htoteq]
        rw [hite, hInv v hv]
        ring
      · intro v hv
        rw [husers] at hv
        unfold bumpUser at hv
        obtain ⟨u, hu, hveq⟩ := List.mem_map.mp hv
        rw [hmeals, mealSumFor_replaceFirst m2 _ hfind]
        subst hveq
        by_cases hid : u.id = o
        · rw [if_pos hid]
          have h1 : (if m2.userId == u.id then m2.totalCalories else 0) = m2.totalCalories := by
            rw [if_pos (beq_iff_eq.mpr (by rw [hm2uid, hid]))]
          have h2 : (if meal.userId == u.id then meal.totalCalories else 0)
              = meal.totalCalories := by
            rw [if_pos (beq_iff_eq.mpr (by rw [hmuid, hid]))]
          rw [h1, h2]
          have h0 := hInv u hu
          simp only []
          rw [h0]
          ring
        · rw [if_neg hid]
          have h1 : (if m2.userId == u.id then m2.totalCalories else 0) = 0 := by
            rw [if_neg (by simp [hm2uid]; omega)]
          have h2 : (if meal.userId == u.id then meal.totalCalories else 0) = 0 := by
            rw [if_neg (by simp [hmuid]; omega)]
          rw [h1, h2, hInv u hu]
          ring
  | del o mid =>
    dsimp only [applyOp]
    rcases hres : deleteMeal st o mid with ⟨res, st2⟩
    dsimp only
    cases res with
    | error e =>
      rw [deleteMeal_err_shape st o mid e st2 hres]
      exact hInv
    | ok m =>
      obtain ⟨hfind, hmeals, husers, _, _⟩ := deleteMeal_ok_shape st o mid m st2 hres
      have hmuid : m.userId = o := (findMeal_mem hfind).2.2
      intro v hv
      rw [husers] at hv
      unfold bumpUser at hv
      obtain ⟨u, hu, hveq⟩ := List.mem_map.mp hv
      rw [hmeals, mealSumFor_removeFirst _ hfind]
      subst hveq
      by_cases hid : u.id = o
      · rw [if_pos hid]
        have h1 : (if m.userId == u.id then m.totalCalories else 0) = m.totalCalories := by
          rw [if_pos (beq_iff_eq.mpr (by rw [hmuid, hid]))]
        rw [h1]
        have h0 := hInv u hu
        simp only []
        rw [h0]
        ring
      · rw [if_neg hid]
        have h1 : (if m.userId == u.id then m.totalCalories else 0) = 0 := by
          rw [if_neg (by simp [hmuid]; omega)]
        rw [h1, hInv u hu]
        ring

theorem ledgerInv_run (st : St) (ops : List Op) (hInv : LedgerInv st)
    (hOwner : ∀ op ∈ ops, op.owner ∈ st.users.map User.id)
    (hGood : ∀ op ∈ ops, op.goodClientTotal) : LedgerInv (run st ops) := by
  induction ops generalizing st with
  | nil => exact hInv
  | cons op rest ih =>
    rw [run, List.foldl_cons]
    apply ih (applyOp st op)
    · exact ledgerInv_applyOp st op hInv (hOwner op (by simp)) (hGood op (by simp))
    · intro op2 h2
      rw [map_id_applyOp]
      exact hOwner op2 (List.mem_cons_of_mem _ h2)
    · intro op2 h2
      exact hGood op2 (List.mem_cons_of_mem _ h2)

theorem mealInv_applyOp (st : St) (op : Op) (hInv : MealInv st) :
    MealInv (applyOp st op) := by
  cases op with
  | log o now req =>
    dsimp only [applyOp]
    rcases hres : logMeal st o now req with ⟨res, st2⟩
    dsimp only
    cases res with
    | ok m =>
      obtain ⟨_, _, hfoods, htot, hmeals, _, _, _⟩ := logMeal_ok_shape st o now req m st2 hres
      intro x hx
      rw [hmeals] at hx
      rcases List.mem_append.mp hx with hx | hx
      · exact hInv x hx
      · have hxm : x = m := by simpa using hx
        subst hxm
        rw [htot, hookSum_eq_sum, hfoods]
    | error e =>
      rcases logMeal_err_shape st o now req e st2 hres with h | ⟨_, _, m, hmeals, htot, _⟩
      · rw [h]; exact hInv
      · intro x hx
        rw [hmeals] at hx
        rcases List.mem_append.mp hx with hx | hx
        · exact hInv x hx
        · have hxm : x = m := by simpa using hx
          subst hxm
          rw [htot, hookSum_eq_sum]
  | update o mid req =>
    dsimp only [applyOp]
    rcases hres : updateMeal st o mid req with ⟨res, st2⟩
    dsimp only
    cases res with
    | ok m2 =>
      obtain ⟨meal, hfind, hm2, hmeals, _, _⟩ := updateMeal_ok_shape st o mid req m2 st2 hres
      have hmem : meal ∈ st.meals := (findMeal_mem hfind).1
      intro x hx
      rw [hmeals] at hx
      rcases mem_replaceFirst hx with hx | hx
      · subst hx
        rw [hm2]
        by_cases hch : (applyPatch meal req).foods = meal.foods
        · rw [runBeforeUpdate_of_unchanged _ _ hch, applyPatch_totalCalories, hch]
          exact hInv meal hmem
        · rw [runBeforeUpdate_total_of_changed _ _ hch, runBeforeUpdate_foods, hookSum_eq_sum]
      · exact hInv x hx
    | error e =>
      rcases updateMeal_err_shape st o mid req e st2 hres with h | ⟨_, _, meal, hfind, hmeals⟩
      · rw [h]; exact hInv
      · have hmem : meal ∈ st.meals := (findMeal_mem hfind).1
        intro x hx
        rw [hmeals] at hx
        rcases mem_replaceFirst hx with hx | hx
        · subst hx
          by_cases hch : (applyPatch meal req).foods = meal.foods
          · rw [runBeforeUpdate_of_unchanged _ _ hch, applyPatch_totalCalories, hch]
            exact hInv meal hmem
          · rw [runBeforeUpdate_total_of_changed _ _ hch, runBeforeUpdate_foods, hookSum_eq_sum]
        · exact hInv x hx
  | del o mid =>
    dsimp only [applyOp]
    rcases hres : deleteMeal st o mid with ⟨res, st2⟩
    dsimp only
    cases res with
    | ok m =>
      obtain ⟨_, hmeals, _, _, _⟩ := deleteMeal_ok_shape st o mid m st2 hres
      intro x hx
      rw [hmeals] at hx
      exact hInv x (mem_removeFirst hx)
    | error e =>
      rw [deleteMeal_err_shape st o mid e st2 hres]
      exact hInv

theorem mealInv_run (st : St) (ops : List Op) (hInv : MealInv st) :
    MealInv (run st ops) := by
  induction ops generalizing st with
  | nil => exact hInv
  | cons op rest ih =>
    rw [run, List.foldl_cons]
    exact ih (applyOp st op) (mealInv_applyOp st op hInv)

/-- C1 counterexample: a single successful `logMeal` whose client-supplied
`totalCalories` (500) differs from the sum of its foods (100) leaves
`totalLifetimeCalories` at 500 while the stored ledger sums to 100, so the
counter-sync invariant fails after a sequence of successful operations. -/
theorem client_total_mismatch_breaks_counter_sync :
    (logMeal demoState 1 demoNow mismatchReq).1.isOk = true
    ∧ ¬ LedgerInv (run demoState [Op.log 1 demoNow mismatchReq])
    ∧ (run demoState [Op.log 1 demoNow mismatchReq]).users.map
        User.totalLifetimeCalories = [500]
    ∧ mealSumFor (run demoState [Op.log 1 demoNow mismatchReq]).meals 1 = 100 := by
  decide

/-- C1 (amended): the counter-sync invariant — every user row caches the
sum of `totalCalories` over its non-deleted meals — is preserved by any
finite sequence of logMeal/updateMeal/deleteMeal operations, provided
every `logMeal` in the sequence supplies no client `totalCalories`, a
zero one, or one equal to the sum of its foods (and every operation runs
as an existing user, as the authenticated routes do). -/
theorem counter_sync_inv_preserved_of_good_client_totals
    (st : St) (ops : List Op) (hInv : LedgerInv st)
    (hOwner : ∀ op ∈ ops, op.owner ∈ st.users.map User.id)
    (hGood : ∀ op ∈ ops, op.goodClientTotal) :
    LedgerInv (run st ops) :=
  ledgerInv_run st ops hInv hOwner hGood

/-- C1 (amended) witness: a concrete log-update-delete sequence on a
fresh account keeps the counter in sync. -/
theorem counter_sync_inv_preserved_witness :
    LedgerInv (run demoState
      [Op.log 1 demoNow appleReq, Op.update 1 1 update60, Op.del 1 1]) :=
  counter_sync_inv_preserved_of_good_client_totals demoState
    [Op.log 1 demoNow appleReq, Op.update 1 1 update60, Op.del 1 1]
    (by decide) (by decide) (by decide)

/-- C2: every stored meal row keeps `totalCalories` equal to the sum of
the calories of its foods, across any sequence of
logMeal/updateMeal/deleteMeal operations — regardless of any
client-supplied `totalCalories` (the `beforeCreate`/`beforeUpdate` hooks
recompute it server-side). -/
theorem stored_total_eq_foods_sum (st : St) (ops : List Op) (hInv : MealInv st) :
    MealInv (run st ops) :=
  mealInv_run st ops hInv

/-- C2 witness: even a `logMeal` with a mismatching client total (500 vs
foods summing to 100) stores `totalCalories = 100`, and an update keeps
the recomputed sum. -/
theorem stored_total_eq_foods_sum_witness :
    MealInv (run demoState [Op.log 1 demoNow mismatchReq, Op.update 1 1 update60]) :=
  stored_total_eq_foods_sum demoState
    [Op.log 1 demoNow mismatchReq, Op.update 1 1 update60] (by decide)

/-- C3 counterexample: a successful `logMeal` with client
`totalCalories = 500` over foods summing to 100 increments the owner
counter by 500 while the created record stores `totalCalories = 100` —
the increment is not the stored record total. -/
theorem increment_differs_from_stored_total :
    (logMeal demoState 1 demoNow mismatchReq).1.isOk = true
    ∧ (run demoState [Op.log 1 demoNow mismatchReq]).users.map
        User.totalLifetimeCalories = [500]
    ∧ (run demoState [Op.log 1 demoNow mismatchReq]).meals.map
        MealRec.totalCalories = [100] := by
  decide

/-- C3 (amended): every successful `logMeal` increments the owner
counter by `calculatedCalories = clientTotal || sum(foods)`; the stored
record total is always the foods sum, so the increment equals the stored
total exactly when the client total is absent, zero, or equal to the
foods sum. -/
theorem logMeal_increments_by_calculated_calories
    (st : St) (oid : Nat) (now : Int) (req : LogReq) (m : MealRec) (st' : St)
    (u : User) (hu : findUser st.users oid = some u)
    (hok : logMeal st oid now req = (.ok m, st')) :
    findUser st'.users oid
      = some { u with totalLifetimeCalories :=
          u.totalLifetimeCalories + jsOrInt req.totalCalories (reqFoodsSum req.foods) }
    ∧ m.totalCalories = reqFoodsSum req.foods
    ∧ ((req.totalCalories = none ∨ req.totalCalories = some 0
        ∨ req.totalCalories = some (reqFoodsSum req.foods)) →
        jsOrInt req.totalCalories (reqFoodsSum req.foods) = m.totalCalories) := by
  obtain ⟨_, _, _, htot, _, _, husers, _⟩ := logMeal_ok_shape st oid now req m st' hok
  refine ⟨?_, ?_, ?_⟩
  · rw [husers]
    exact findUser_bumpUser_self st.users oid _ u hu
  · rw [htot, hookSum_mapFood]
  · intro hgood
    rw [jsOrInt_of_good hgood, htot, hookSum_mapFood]

/-- C3 (amended) witness: the apple scenario, where no client total is
supplied, increments by exactly the stored total 95. -/
theorem logMeal_increments_witness :
    findUser stAfterApple.users 1
      = some { (freshUser 1) with
          totalLifetimeCalories := (freshUser 1).totalLifetimeCalories
              + jsOrInt appleReq.totalCalories (reqFoodsSum appleReq.foods) }
    ∧ appleMeal.totalCalories = reqFoodsSum appleReq.foods
    ∧ ((appleReq.totalCalories = none ∨ appleReq.totalCalories = some 0
        ∨ appleReq.totalCalories = some (reqFoodsSum appleReq.foods)) →
        jsOrInt appleReq.totalCalories (reqFoodsSum appleReq.foods)
          = appleMeal.totalCalories) :=
  logMeal_increments_by_calculated_calories demoState 1 demoNow appleReq
    appleMeal stAfterApple (freshUser 1) (by decide) (by decide)

/-- C4: `logMeal` is not atomic — when the `user.save()` that follows a
successful `Meal.create` fails, the meal row persists while the owner
counter is unchanged (the route wraps neither write in a transaction). -/
theorem logMeal_nonatomic_on_counter_save_failure :
    (logMealWith true demoState 1 demoNow appleReq).1 = .error .server
    ∧ (logMealWith true demoState 1 demoNow appleReq).2.meals = [appleMeal]
    ∧ (logMealWith true demoState 1 demoNow appleReq).2.users.map
        User.totalLifetimeCalories = [0] := by
  decide

/-- C5: `logMeal` answers the explicit 400 route-validation error and
leaves the database untouched whenever the foods array is empty, some
food has an empty (missing) name, or some food has negative calories. -/
theorem logMeal_route_validation_rejects_bad_foods
    (st : St) (oid : Nat) (now : Int) (req : LogReq)
    (hbad : req.foods = [] ∨ ∃ f ∈ req.foods, f.name = "" ∨ f.calories < 0) :
    isRouteValidationErr (logMeal st oid now req).1 = true
    ∧ (logMeal st oid now req).2 = st := by
  unfold logMeal logMealWith
  simp only [Bool.false_eq_true, if_false]
  split
  · exact ⟨rfl, rfl⟩
  · next hempty =>
    split
    · exact ⟨rfl, rfl⟩
    · next hnoany =>
      exfalso
      rcases hbad with hbad | ⟨f, hf, hbadf⟩
      · rw [hbad] at hempty
        simp at hempty
      · apply hnoany
        rw [List.any_eq_true]
        refine ⟨f, hf, ?_⟩
        rcases hbadf with h | h <;> simp [h]

/-- C5 witness: `logMeal` with `foods = []` is rejected by route
validation and mutates nothing. -/
theorem logMeal_route_validation_witness :
    isRouteValidationErr (logMeal demoState 1 demoNow emptyFoodsReq).1 = true
    ∧ (logMeal demoState 1 demoNow emptyFoodsReq).2 = demoState :=
  logMeal_route_validation_rejects_bad_foods demoState 1 demoNow emptyFoodsReq
    (Or.inl rfl)

/-- C6: a successful `updateMeal` that changes the foods list recomputes
`totalCalories` as the sum of the new foods and moves the owner counter
by exactly the delta (new total minus old total). -/
theorem updateMeal_recomputes_and_applies_delta
    (st : St) (oid mid : Nat) (req : UpdateReq) (fs : List ReqFood)
    (meal : MealRec) (u : User) (m' : MealRec) (st' : St)
    (hfs : req.foods = some fs) (hne : fs ≠ [])
    (hfind : findMeal st.meals mid oid = some meal)
    (hch : fs.map mapFood ≠ meal.foods)
    (hu : findUser st.users oid = some u)
    (hok : updateMeal st oid mid req = (.ok m', st')) :
    m'.totalCalories = ((fs.map mapFood).map Food.calories).sum
    ∧ findUser st'.users oid
        = some { u with totalLifetimeCalories :=
            u.totalLifetimeCalories + (m'.totalCalories - meal.totalCalories) } := by
  obtain ⟨meal2, hfind2, hm', hmeals, _, hcase⟩ :=
    updateMeal_ok_shape st oid mid req m' st' hok
  rw [hfind] at hfind2
  injection hfind2 with hfind2
  subst hfind2
  have hfoods : (applyPatch meal req).foods = fs.map mapFood := by
    unfold applyPatch updatedFoods
    rw [hfs]
    have hne2 : fs.isEmpty = false := by
      cases fs with
      | nil => exact absurd rfl hne
      | cons a l => rfl
    simp [hne2]
  have htot : m'.totalCalories = hookSum (fs.map mapFood) := by
    rw [hm', runBeforeUpdate_total_of_changed _ _ (by rw [hfoods]; exact hch), hfoods]
  constructor
  · rw [htot, hookSum_eq_sum]
  · rcases hcase with ⟨htoteq, husers⟩ | ⟨_, husers⟩
    · rw [husers, hu, htoteq, sub_self, add_zero]
    · rw [husers]
      exact findUser_bumpUser_self st.users oid _ u hu

/-- C6 witness: changing foods from `[{calories:100}]` to
`[{calories:60}]` stores total 60 and moves the counter from 100 to
`100 + (60 - 100) = 60`, a decrease of exactly 40. -/
theorem updateMeal_delta_witness :
    ((100 : Int) + (meal60.totalCalories - meal100.totalCalories) = 100 - 40)
    ∧ (meal60.totalCalories
          = (([{ name := "x", calories := 60 }] : List ReqFood).map mapFood
              |>.map Food.calories).sum
        ∧ findUser stAfter60.users 1
            = some { userHundred with
                totalLifetimeCalories := userHundred.totalLifetimeCalories
                  + (meal60.totalCalories - meal100.totalCalories) }) :=
  ⟨by decide,
   updateMeal_recomputes_and_applies_delta stWithMeal 1 1 update60
     [{ name := "x", calories := 60 }] meal100 userHundred
     meal60 stAfter60 (by decide) (by decide) (by decide) (by decide)
     (by decide) (by decide)⟩

/-- C7: `deleteMeal` on an id that does not exist for the caller (absent
or owned by someone else) answers 404 with the state unchanged; on an
owned meal it returns the record, removes exactly one row (all remaining
rows are old rows), lowers the owner ledger sum and the owner counter by
exactly the deleted total, and leaves every other user row unchanged. -/
theorem deleteMeal_not_found_or_decrements (st : St) (oid mid : Nat) :
    (findMeal st.meals mid oid = none →
      deleteMeal st oid mid = (.error .notFound, st))
    ∧ (∀ meal u, findMeal st.meals mid oid = some meal →
        findUser st.users oid = some u →
        (deleteMeal st oid mid).1 = .ok meal
        ∧ (deleteMeal st oid mid).2.meals.length + 1 = st.meals.length
        ∧ (∀ x ∈ (deleteMeal st oid mid).2.meals, x ∈ st.meals)
        ∧ mealSumFor (deleteMeal st oid mid).2.meals oid
            = mealSumFor st.meals oid - meal.totalCalories
        ∧ findUser (deleteMeal st oid mid).2.users oid
            = some { u with totalLifetimeCalories :=
                u.totalLifetimeCalories - meal.totalCalories }
        ∧ (∀ w, w ≠ oid →
            findUser (deleteMeal st oid mid).2.users w = findUser st.users w)) := by
  constructor
  · intro hnone
    unfold deleteMeal
    rw [hnone]
  · intro meal u hfind hu
    rcases hres : deleteMeal st oid mid with ⟨res, st2⟩
    cases res with
    | error e =>
      exfalso
      unfold deleteMeal at hres
      rw [hfind] at hres
      rw [hu] at hres
      simp at hres
    | ok m =>
      obtain ⟨hfind2, hmeals, husers, _, _⟩ := deleteMeal_ok_shape st oid mid m st2 hres
      rw [hfind] at hfind2
      injection hfind2 with hfind2
      subst hfind2
      have hmuid : meal.userId = oid := (findMeal_mem hfind).2.2
      dsimp only
      refine ⟨rfl, ?_, ?_, ?_, ?_, ?_⟩
      · rw [hmeals]
        exact length_removeFirst hfind
      · intro x hx
        rw [hmeals] at hx
        exact mem_removeFirst hx
      · rw [hmeals, mealSumFor_removeFirst _ hfind,
          if_pos (beq_iff_eq.mpr hmuid)]
      · rw [husers, findUser_bumpUser_self st.users oid _ u hu, sub_eq_add_neg]
      · intro w hw
        rw [husers]
        exact findUser_bumpUser_other st.users oid w _ hw

/-- C7 witness: deleting a nonexistent meal id is a 404 no-op, and
deleting the owned 100-calorie meal removes it and lowers the counter
from 100 to 0. -/
theorem deleteMeal_witness :
    (deleteMeal stWithMeal 1 99 = (.error .notFound, stWithMeal))
    ∧ ((deleteMeal stWithMeal 1 1).1 = .ok meal100
        ∧ (deleteMeal stWithMeal 1 1).2.meals.length + 1 = stWithMeal.meals.length
        ∧ (∀ x ∈ (deleteMeal stWithMeal 1 1).2.meals, x ∈ stWithMeal.meals)
        ∧ mealSumFor (deleteMeal stWithMeal 1 1).2.meals 1
            = mealSumFor stWithMeal.meals 1 - meal100.totalCalories
        ∧ findUser (deleteMeal stWithMeal 1 1).2.users 1
            = some { userHundred with
                totalLifetimeCalories := userHundred.totalLifetimeCalories
                  - meal100.totalCalories }
        ∧ (∀ w, w ≠ 1 →
            findUser (deleteMeal stWithMeal 1 1).2.users w
              = findUser stWithMeal.users w)) :=
  ⟨(deleteMeal_not_found_or_decrements stWithMeal 1 99).1 (by decide),
   (deleteMeal_not_found_or_decrements stWithMeal 1 1).2 meal100 userHundred
     (by decide) (by decide)⟩

/-- C8: `getDailyCalories` aggregates exactly the meals of the given
owner whose `consumedAt` lies in the half-open window
`[startOfDay(date), startOfDay(date) + 24h)`: its `totalCalories` and
`totalSteps` are the sums and `mealCount` the count over that selection,
membership in the selection is characterized by the window condition,
and an empty selection yields `{0, 0, 0}` rather than an error. -/
theorem dailyTotals_sums_window (st : St) (uid : Nat) (date : Int) :
    let sel := st.meals.filter (fun m =>
      m.userId == uid
        && decide (startOfDay date ≤ m.consumedAt)
        && decide (m.consumedAt < startOfDay date + msPerDay))
    (getDailyCalories st uid date).totalCalories
        = (sel.map MealRec.totalCalories).sum
    ∧ (getDailyCalories st uid date).mealCount = sel.length
    ∧ (getDailyCalories st uid date).totalSteps
        = (sel.map MealRec.recommendedSteps).sum
    ∧ (∀ m, m ∈ sel ↔
        m ∈ st.meals ∧ m.userId = uid ∧ startOfDay date ≤ m.consumedAt
          ∧ m.consumedAt < startOfDay date + msPerDay)
    ∧ (sel = [] → getDailyCalories st uid date = ⟨0, 0, 0⟩) := by
  intro sel
  have hrows : getDailyCalories st uid date
      = { totalCalories := sqlSum (sel.map MealRec.totalCalories)
          mealCount := sel.length
          totalSteps := sqlSum (sel.map MealRec.recommendedSteps) } := rfl
  refine ⟨?_, ?_, ?_, ?_, ?_⟩
  · exact sqlSum_eq_sum _
  · rfl
  · exact sqlSum_eq_sum _
  · intro m
    constructor
    · intro hm
      have h := List.mem_filter.mp hm
      have h2 := h.2
      simp only [Bool.and_eq_true, beq_iff_eq, decide_eq_true_eq] at h2
      exact ⟨h.1, h2.1.1, h2.1.2, h2.2⟩
    · intro ⟨h1, h2, h3, h4⟩
      refine List.mem_filter.mpr ⟨h1, ?_⟩
      simp [h2, h3, h4]
  · intro hempty
    rw [hrows, hempty]
    rfl

/-- C8 witness: a user with no meals in the window gets `{0, 0, 0}`. -/
theorem dailyTotals_witness :
    getDailyCalories stWithMeal 2 demoNow = ⟨0, 0, 0⟩ :=
  (dailyTotals_sums_window stWithMeal 2 demoNow).2.2.2.2 (by decide)

/-- C9: the `dailyProgress` formulas of the progress route, evaluated on
the §8 scenario — fresh user with default goal 2000 after logging the
single 95-calorie apple meal today — yield
`{current: 95, goal: 2000, percentage: 5, remaining: 1905}`, and the
percentage is not clamped (5000/2000 gives 250). -/
theorem progress_formula_on_scenario :
    ((findUser (run demoState [Op.log 1 demoNow appleReq]).users 1).map
        User.dailyCalorieGoal = some 2000)
    ∧ (getDailyCalories (run demoState [Op.log 1 demoNow appleReq]) 1
        demoNow).totalCalories = 95
    ∧ dailyProgressOf 95 2000 = ⟨95, 2000, 5, 1905⟩
    ∧ (dailyProgressOf 5000 2000).percentage = 250 := by
  decide

/-- C10: the request `foods=[{name:"water",calories:0}]` passes both
route-level checks (nonempty foods, nonempty name, non-negative
calories) yet `logMeal` fails with a Sequelize model-validation error —
`isValidFoods` rejects the falsy calorie value 0 — and no meal row is
created. -/
theorem zero_calorie_food_rejected_by_model_validator :
    waterReq.foods.isEmpty = false
    ∧ (waterReq.foods.any (fun f => f.name == "" || decide (f.calories < 0))) = false
    ∧ isModelValidationErr (logMeal demoState 1 demoNow waterReq).1 = true
    ∧ (logMeal demoState 1 demoNow waterReq).2 = demoState := by
  decide

end CaloriePal
